import Mathlib

/-!
Verification of the ESG stock-performance pipeline.

This file gives a shallow embedding of the pipeline's data-processing and
feature-engineering stages (returns calculation, ESG cleaning, risk-free-rate
conversion, dataset merging, and per-ticker performance/risk aggregation) and
proves properties of the embedded functions.

Modelling conventions:
* A pandas DataFrame is a `List` of row structures; column values that can be
  `NaN` or `±inf` in a float column are modelled by `EVal` (finite rational,
  NaN, or a signed infinity); columns that are guaranteed finite at a given
  stage are plain `ℚ`.
* Irrational real operations (`sqrt`, fractional powers) have no exact
  rational counterpart, so functions that use them take the operation as an
  explicit parameter (`sqrtQ`, `powQ`, `root252`); theorems assume only the
  algebraic facts the proofs need (for example `sqrtQ 0 = 0`).
* `sort_values` is modelled by a stable insertion sort; pandas' default sort
  is unstable, so the model fixes one of the orders pandas may produce
  (the properties proved do not depend on tie order).
-/

namespace ESG

/-- A float cell of a pandas numeric column: a finite value (modelled exactly
as a rational), `NaN`, `+inf`, or `-inf`. -/
inductive EVal where
  | nanV : EVal
  | infV : EVal
  | ninfV : EVal
  | fin : ℚ → EVal
deriving DecidableEq, Repr

/-- `np.isinf` on a single cell. -/
def EVal.isInf : EVal → Bool
  | EVal.infV => true
  | EVal.ninfV => true
  | _ => false

/-- IEEE-style subtraction on cells (used for `Excess_Return = Return - Daily_RF_Rate`). -/
def EVal.sub : EVal → EVal → EVal
  | EVal.nanV, _ => EVal.nanV
  | _, EVal.nanV => EVal.nanV
  | EVal.fin a, EVal.fin b => EVal.fin (a - b)
  | EVal.infV, EVal.infV => EVal.nanV
  | EVal.infV, _ => EVal.infV
  | EVal.ninfV, EVal.ninfV => EVal.nanV
  | EVal.ninfV, _ => EVal.ninfV
  | EVal.fin _, EVal.infV => EVal.ninfV
  | EVal.fin _, EVal.ninfV => EVal.infV

/-- Insert an element into a list so that it lands before the first element it
compares `le` to (the inner step of insertion sort). -/
def insertLe {α : Type} (le : α → α → Bool) (a : α) : List α → List α
  | [] => [a]
  | b :: l => if le a b then a :: b :: l else b :: insertLe le a l

/-- Stable insertion sort; the model of `DataFrame.sort_values`. -/
def sortBy {α : Type} (le : α → α → Bool) : List α → List α
  | [] => []
  | a :: l => insertLe le a (sortBy le l)

theorem perm_insertLe {α : Type} (le : α → α → Bool) (a : α) (l : List α) :
    (insertLe le a l).Perm (a :: l) := by
  induction l with
  | nil => exact List.Perm.refl _
  | cons b t ih =>
    simp only [insertLe]
    split
    · exact List.Perm.refl _
    · exact (ih.cons b).trans (List.Perm.swap a b t)

theorem perm_sortBy {α : Type} (le : α → α → Bool) (l : List α) :
    (sortBy le l).Perm l := by
  induction l with
  | nil => exact List.Perm.refl _
  | cons a t ih => exact (perm_insertLe le a (sortBy le t)).trans (ih.cons a)

theorem mem_sortBy {α : Type} (le : α → α → Bool) (l : List α) (a : α) :
    a ∈ sortBy le l ↔ a ∈ l :=
  (perm_sortBy le l).mem_iff

theorem sortBy_eq_self {α : Type} (le : α → α → Bool) :
    ∀ l : List α, l.Pairwise (fun a b => le a b = true) → sortBy le l = l := by
  intro l
  induction l with
  | nil => intro _; rfl
  | cons a t ih =>
    intro h
    have ha := (List.pairwise_cons.mp h).1
    have ht := (List.pairwise_cons.mp h).2
    simp only [sortBy, ih ht]
    cases t with
    | nil => rfl
    | cons b u =>
      simp only [insertLe]
      rw [if_pos (ha b (by simp))]

/-- `Series.unique()`: the distinct values of a column in first-occurrence
order; `seen` accumulates values already emitted. -/
def uniqueKeep : List String → List String → List String
  | [], _ => []
  | t :: rest, seen =>
    if t ∈ seen then uniqueKeep rest seen
    else t :: uniqueKeep rest (t :: seen)

theorem mem_uniqueKeep (l : List String) :
    ∀ (seen : List String) (a : String), a ∈ uniqueKeep l seen ↔ a ∈ l ∧ a ∉ seen := by
  induction l with
  | nil => intro seen a; simp [uniqueKeep]
  | cons t rest ih =>
    intro seen a
    simp only [uniqueKeep]
    split
    · rename_i hts
      rw [ih seen a]
      simp only [List.mem_cons]
      constructor
      · rintro ⟨hr, hs⟩; exact ⟨Or.inr hr, hs⟩
      · rintro ⟨ht | hr, hs⟩
        · exact absurd (ht ▸ hts) hs
        · exact ⟨hr, hs⟩
    · rename_i hts
      simp only [List.mem_cons, ih (t :: seen) a]
      by_cases hat : a = t
      · subst hat; simp [hts]
      · simp [hat]

/-! ## Returns calculator (`src/data_processing/calculate_returns.py`, `calculate_returns`) -/

/-- A row of the cleaned price table (date as a day index, price finite after
cleaning). -/
structure PRow where
  ticker : String
  date : ℕ
  price : ℚ
deriving DecidableEq, Repr

/-- The `(Ticker, Date)` lexicographic order used by `sort_values([ticker_col, date_col])`. -/
def prowLe (a b : PRow) : Bool :=
  if a.ticker = b.ticker then decide (a.date ≤ b.date) else decide (a.ticker < b.ticker)

/-- One step of `pct_change`: the float `(p - prev) / prev`, with the IEEE
outcomes for a zero previous price. -/
def pctVal (p prev : ℚ) : EVal :=
  if prev = 0 then
    (if 0 < p then EVal.infV else if p < 0 then EVal.ninfV else EVal.nanV)
  else EVal.fin (p / prev - 1)

/-- `groupby(ticker)[price].pct_change()` on a frame already sorted by
`(ticker, date)` (so each ticker's rows are contiguous): each row is paired
with its return, computed from the adjacent previous row when that row has the
same ticker, and `NaN` otherwise (first row of each ticker). -/
def pctChange : Option PRow → List PRow → List (PRow × EVal)
  | _, [] => []
  | prev, r :: rest =>
    (r, match prev with
        | some q => if q.ticker = r.ticker then pctVal r.price q.price else EVal.nanV
        | none => EVal.nanV) :: pctChange (some r) rest

def sortedPrices (df : List PRow) : List PRow := sortBy prowLe df

/-- The frame after sorting and `pct_change`, with the per-row `Return` column. -/
def returnsWithNa (df : List PRow) : List (PRow × EVal) :=
  pctChange none (sortedPrices df)

/-- After `dropna(subset=["Return"])`. -/
def returnsAfterDropna (df : List PRow) : List (PRow × EVal) :=
  (returnsWithNa df).filter (fun x => !(decide (x.2 = EVal.nanV)))

/-- The full returns calculation: sort, per-ticker `pct_change`, drop the `NaN`
first rows, remove infinite returns.  Extreme returns (`|Return| > 1`) are only
counted and printed by the source, so no further filtering happens. -/
def calculate_returns (df : List PRow) : List (PRow × EVal) :=
  (returnsAfterDropna df).filter (fun x => !(x.2.isInf))

/-- A single ticker's chronological price series as a price table (dates
`d, d+1, ...`). -/
def mkSeries (t : String) : ℕ → List ℚ → List PRow
  | _, [] => []
  | d, p :: ps => { ticker := t, date := d, price := p } :: mkSeries t (d + 1) ps

theorem mem_mkSeries (t : String) :
    ∀ (ps : List ℚ) (d : ℕ) (r : PRow), r ∈ mkSeries t d ps → r.ticker = t ∧ d ≤ r.date := by
  intro ps
  induction ps with
  | nil => intro d r hr; simp [mkSeries] at hr
  | cons p rest ih =>
    intro d r hr
    simp only [mkSeries, List.mem_cons] at hr
    rcases hr with hr | hr
    · subst hr; exact ⟨rfl, le_refl d⟩
    · rcases ih (d + 1) r hr with ⟨h1, h2⟩
      exact ⟨h1, le_trans (Nat.le_succ d) h2⟩

theorem mkSeries_pairwise (t : String) :
    ∀ (ps : List ℚ) (d : ℕ), (mkSeries t d ps).Pairwise (fun a b => prowLe a b = true) := by
  intro ps
  induction ps with
  | nil => intro d; simp [mkSeries]
  | cons p rest ih =>
    intro d
    simp only [mkSeries]
    refine List.pairwise_cons.mpr ⟨?_, ih (d + 1)⟩
    intro b hb
    rcases mem_mkSeries t rest (d + 1) b hb with ⟨hbt, hbd⟩
    simp [prowLe, hbt]
    omega

theorem sortedPrices_mkSeries (t : String) (d : ℕ) (ps : List ℚ) :
    sortedPrices (mkSeries t d ps) = mkSeries t d ps :=
  sortBy_eq_self prowLe _ (mkSeries_pairwise t ps d)

theorem pctChange_mkSeries (t : String) :
    ∀ (ps : List ℚ) (d : ℕ) (r0 : PRow), r0.ticker = t → r0.price ≠ 0 →
      (∀ p ∈ ps, p ≠ 0) →
      pctChange (some r0) (mkSeries t d ps)
        = (mkSeries t d ps).zip
            (List.zipWith (fun prev p => EVal.fin (p / prev - 1)) (r0.price :: ps) ps) := by
  intro ps
  induction ps with
  | nil => intro d r0 _ _ _; rfl
  | cons p rest ih =>
    intro d r0 ht hp0 hps
    simp only [mkSeries, pctChange, List.zipWith, List.zip_cons_cons]
    have h1 : (if r0.ticker = t then pctVal p r0.price else EVal.nanV)
        = EVal.fin (p / r0.price - 1) := by
      rw [if_pos ht]
      simp only [pctVal, if_neg hp0]
    rw [h1, ih (d + 1) { ticker := t, date := d, price := p } rfl
        (hps p (by simp)) (fun q hq => hps q (by simp [hq]))]

theorem filter_eq_self_of_fin {p : (PRow × EVal) → Bool}
    (l : List (PRow × EVal)) (hall : ∀ x ∈ l, ∃ q, x.2 = EVal.fin q)
    (hp : ∀ (x : PRow × EVal) (q : ℚ), x.2 = EVal.fin q → p x = true) :
    l.filter p = l := by
  rw [List.filter_eq_self]
  intro a ha
  rcases hall a ha with ⟨q, hq⟩
  exact hp a q hq

theorem mem_zipWith_fin :
    ∀ (prevs ps : List ℚ) (v : EVal),
      v ∈ List.zipWith (fun prev p => EVal.fin (p / prev - 1)) prevs ps →
      ∃ q, v = EVal.fin q := by
  intro prevs
  induction prevs with
  | nil => intro ps v hv; simp at hv
  | cons a t ih =>
    intro ps v hv
    cases ps with
    | nil => simp at hv
    | cons b u =>
      simp only [List.zipWith, List.mem_cons] at hv
      rcases hv with hv | hv
      · exact ⟨b / a - 1, hv⟩
      · exact ih u v hv

theorem zip_snd_fin (rows : List PRow) (prevs ps : List ℚ) (x : PRow × EVal)
    (hx : x ∈ rows.zip (List.zipWith (fun prev p => EVal.fin (p / prev - 1)) prevs ps)) :
    ∃ q, x.2 = EVal.fin q :=
  mem_zipWith_fin prevs ps x.2 (List.of_mem_zip hx).2

theorem length_mkSeries (t : String) :
    ∀ (ps : List ℚ) (d : ℕ), (mkSeries t d ps).length = ps.length := by
  intro ps
  induction ps with
  | nil => intro d; rfl
  | cons p rest ih => intro d; simp [mkSeries, ih (d + 1)]

/-- C3: for a single-ticker chronological price series with nonzero prices,
the returns calculator produces exactly the simple returns
`Return_i = Price_i / Price_(i-1) - 1` of consecutive prices, and the first
observation is dropped (the output has one row fewer than the input); in
particular prices `[100, 110, 99]` yield returns `[1/10, -1/10]`
(see the witness theorem). -/
theorem claim3_return_calculation (t : String) (ps : List ℚ) (hpos : ∀ p ∈ ps, p ≠ 0) :
    (calculate_returns (mkSeries t 0 ps)).map Prod.snd
      = List.zipWith (fun prev p => EVal.fin (p / prev - 1)) ps ps.tail
    ∧ (calculate_returns (mkSeries t 0 ps)).length = ps.length - 1 := by
  cases ps with
  | nil => exact ⟨rfl, rfl⟩
  | cons p rest =>
    have hrec : returnsWithNa (mkSeries t 0 (p :: rest))
        = ({ ticker := t, date := 0, price := p }, EVal.nanV)
          :: (mkSeries t 1 rest).zip
              (List.zipWith (fun prev q => EVal.fin (q / prev - 1)) (p :: rest) rest) := by
      rw [returnsWithNa, sortedPrices_mkSeries t 0 (p :: rest)]
      simp only [mkSeries, pctChange]
      rw [pctChange_mkSeries t rest 1 { ticker := t, date := 0, price := p } rfl
          (hpos p (by simp)) (fun q hq => hpos q (by simp [hq]))]
    have hdrop : returnsAfterDropna (mkSeries t 0 (p :: rest))
        = (mkSeries t 1 rest).zip
            (List.zipWith (fun prev q => EVal.fin (q / prev - 1)) (p :: rest) rest) := by
      rw [returnsAfterDropna, hrec, List.filter_cons]
      simp only [decide_True, Bool.not_true, if_false]
      exact filter_eq_self_of_fin _ (fun x hx => zip_snd_fin _ _ _ x hx)
        (fun x q hq => by simp [hq])
    have hcalc : calculate_returns (mkSeries t 0 (p :: rest))
        = (mkSeries t 1 rest).zip
            (List.zipWith (fun prev q => EVal.fin (q / prev - 1)) (p :: rest) rest) := by
      rw [calculate_returns, hdrop]
      exact filter_eq_self_of_fin _ (fun x hx => zip_snd_fin _ _ _ x hx)
        (fun x q hq => by simp [hq, EVal.isInf])
    constructor
    · rw [hcalc]
      have hlen : (List.zipWith (fun prev q => EVal.fin (q / prev - 1)) (p :: rest) rest).length
          ≤ (mkSeries t 1 rest).length := by
        rw [length_mkSeries, List.length_zipWith]
        simp
      rw [List.map_snd_zip _ _ hlen]
      rfl
    · rw [hcalc, List.length_zip, length_mkSeries, List.length_zipWith]
      simp

/-- Witness for C3 at the spec's example: prices `[100, 110, 99]` give simple
returns `[0.10, -0.10]` and the first row is dropped. -/
theorem claim3_return_calculation_witness :
    (calculate_returns (mkSeries "A" 0 [100, 110, 99])).map Prod.snd
        = [EVal.fin (1/10), EVal.fin (-1/10)]
    ∧ (calculate_returns (mkSeries "A" 0 [100, 110, 99])).length = 2 := by
  have h := claim3_return_calculation "A" [100, 110, 99] (by with_unfolding_all decide)
  refine ⟨?_, ?_⟩
  · rw [h.1]; with_unfolding_all decide
  · rw [h.2]; rfl

/-- C8: after return calculation no infinite (or `NaN`) return remains in the
output, and every row surviving the `dropna` step whose simple return has
absolute value above 1 is still present in the final output (extreme returns
are flagged by the source code but never removed). -/
theorem claim8_no_inf_extremes_kept :
    (∀ (df : List PRow) (x : PRow × EVal), x ∈ calculate_returns df → ∃ q, x.2 = EVal.fin q)
    ∧ (∀ (df : List PRow) (x : PRow × EVal) (q : ℚ), x ∈ returnsAfterDropna df →
        x.2 = EVal.fin q → 1 < |q| → x ∈ calculate_returns df) := by
  constructor
  · intro df x hx
    have h1 := List.of_mem_filter hx
    have hx2 := List.mem_of_mem_filter hx
    have h2 := List.of_mem_filter hx2
    cases hv : x.2 with
    | fin q => exact ⟨q, rfl⟩
    | nanV => rw [hv] at h2; simp at h2
    | infV => rw [hv] at h1; simp [EVal.isInf] at h1
    | ninfV => rw [hv] at h1; simp [EVal.isInf] at h1
  · intro df x q hx hq _
    rw [calculate_returns]
    refine List.mem_filter.mpr ⟨hx, ?_⟩
    simp [hq, EVal.isInf]

/-- The row produced for the price move `100 -> 250`: a simple return of `3/2`. -/
def extremeRow : PRow × EVal := ({ ticker := "A", date := 1, price := 250 }, EVal.fin (3/2))

/-- Witness for C8: for prices `[100, 250]` the return `3/2` is extreme
(`|3/2| > 1`) yet remains in the output. -/
theorem claim8_no_inf_extremes_kept_witness :
    extremeRow ∈ returnsAfterDropna (mkSeries "A" 0 [100, 250])
    ∧ extremeRow ∈ calculate_returns (mkSeries "A" 0 [100, 250]) :=
  ⟨by with_unfolding_all decide,
   claim8_no_inf_extremes_kept.2 (mkSeries "A" 0 [100, 250]) extremeRow (3/2)
      (by with_unfolding_all decide) (by with_unfolding_all decide)
      (by with_unfolding_all decide)⟩

/-! ## Column schema resolution and risk-free-rate conversion
(`src/data_processing/process_risk_free.py`, `process_risk_free_rate`, and the
column-identification loops of `calculate_returns`). -/

/-- The candidate-alias loop `for col in candidates: if col in df.columns:
use col`: the first candidate present among the columns. -/
def resolveFirst (cands cols : List String) : Option String :=
  cands.find? (fun c => cols.contains c)

/-- Column resolution of `calculate_returns`: date, ticker and price columns
must all resolve, else the stage returns `None`. -/
def crResolveCols (cols : List String) : Option (String × String × String) :=
  match resolveFirst ["Date", "date", "DATE"] cols,
        resolveFirst ["Ticker", "Symbol", "ticker", "symbol"] cols,
        resolveFirst ["Close", "Adj Close", "close", "adj_close", "Price"] cols with
  | some d, some t, some p => some (d, t, p)
  | _, _, _ => none

/-- Column resolution of `process_risk_free_rate`: if either the date or the
rate column fails to resolve, the code falls back to guessing the first two
columns, and returns `None` only when fewer than two columns exist. -/
def rfGuessCols : List String → Option (String × String)
  | c0 :: c1 :: _ => some (c0, c1)
  | _ => none

def rfResolveCols (cols : List String) : Option (String × String) :=
  match resolveFirst ["DATE", "Date", "date"] cols,
        resolveFirst ["DGS3MO", "VALUE", "Value", "value"] cols with
  | some d, some r => some (d, r)
  | _, _ => rfGuessCols cols

/-- `Daily_RF_Rate = (1 + Annual_Rate / 100) ** (1 / 252) - 1`; the 252nd real
root has no rational counterpart, so it is passed in as `root252`. -/
def dailyRate (root252 : ℚ → ℚ) (annual : ℚ) : ℚ :=
  root252 (1 + annual / 100) - 1

/-- The column-wise conversion applied to the whole `Annual_Rate` series. -/
def process_rates (root252 : ℚ → ℚ) (rates : List ℚ) : List ℚ :=
  rates.map (dailyRate root252)

/-- Counterexample to C9 as stated: for a two-column rate file whose columns
`["foo", "bar"]` match no candidate alias at all, the risk-free-rate processor
does not abort; it proceeds with the guessed columns `("foo", "bar")`. -/
theorem claim9_counterexample :
    resolveFirst ["DATE", "Date", "date"] ["foo", "bar"] = none
    ∧ resolveFirst ["DGS3MO", "VALUE", "Value", "value"] ["foo", "bar"] = none
    ∧ rfResolveCols ["foo", "bar"] = some ("foo", "bar") := by decide

/-- C9 (amended): column resolution returns the first matching candidate of the
ordered alias list, and resolution failure makes the returns calculator abort
(`None`); the risk-free-rate processor however only aborts when no candidate
matches and fewer than two columns exist — with at least two columns it falls
back to guessing the first two columns instead of aborting. -/
theorem claim9_schema_resolution (cols : List String) :
    (∀ (c : String) (cs : List String), c ∈ cols → resolveFirst (c :: cs) cols = some c)
    ∧ (∀ (c : String) (cs : List String), c ∉ cols →
        resolveFirst (c :: cs) cols = resolveFirst cs cols)
    ∧ (∀ cands : List String, (∀ c ∈ cands, c ∉ cols) → resolveFirst cands cols = none)
    ∧ ((∀ c ∈ (["Date", "date", "DATE"] : List String), c ∉ cols) → crResolveCols cols = none)
    ∧ ((∀ c ∈ (["DATE", "Date", "date"] : List String), c ∉ cols) →
       (∀ c ∈ (["DGS3MO", "VALUE", "Value", "value"] : List String), c ∉ cols) →
        rfResolveCols cols = rfGuessCols cols)
    ∧ (∀ (c0 c1 : String) (rest : List String),
        rfGuessCols (c0 :: c1 :: rest) = some (c0, c1))
    ∧ rfGuessCols [] = none
    ∧ (∀ c0 : String, rfGuessCols [c0] = none) := by
  have hnone : ∀ cands : List String, (∀ c ∈ cands, c ∉ cols) →
      resolveFirst cands cols = none := by
    intro cands h
    rw [resolveFirst, List.find?_eq_none]
    intro c hc
    simpa using h c hc
  refine ⟨?_, ?_, hnone, ?_, ?_, fun c0 c1 rest => rfl, rfl, fun c0 => rfl⟩
  · intro c cs hc
    rw [resolveFirst]
    exact List.find?_cons_of_pos _ (by simpa using hc)
  · intro c cs hc
    rw [resolveFirst]
    rw [List.find?_cons_of_neg _ (by simpa using hc)]
    rfl
  · intro h
    rw [crResolveCols, hnone _ h]
  · intro h1 h2
    unfold rfResolveCols
    rw [hnone _ h1, hnone _ h2]

/-- Witness for C9 (amended), instantiated at the concrete column lists
`["foo", "bar"]` (falls back to guessing) and `["solo"]` (aborts). -/
theorem claim9_schema_resolution_witness :
    resolveFirst ["Date", "Close"] ["Close", "Date"] = some "Date"
    ∧ crResolveCols ["foo", "bar"] = none
    ∧ rfResolveCols ["foo", "bar"] = some ("foo", "bar")
    ∧ rfResolveCols ["solo"] = none :=
  ⟨(claim9_schema_resolution ["Close", "Date"]).1 "Date" ["Close"] (by decide),
   (claim9_schema_resolution ["foo", "bar"]).2.2.2.1 (by decide),
   ((claim9_schema_resolution ["foo", "bar"]).2.2.2.2.1 (by decide) (by decide)).trans
     (by decide),
   ((claim9_schema_resolution ["solo"]).2.2.2.2.1 (by decide) (by decide)).trans
     (by decide)⟩

/-- C7: every annual rate in the input series is converted by
`daily = (1 + annual/100) ** (1/252) - 1` (element-wise over the column), and
whenever `root252` is an actual 252nd root at the given argument — that is,
`root252 (1 + a/100) ^ 252 = 1 + a/100`, the defining property of the real
power `** (1/252)` for a nonnegative base — re-annualizing recovers the
original annual rate exactly: `(1 + daily) ^ 252 - 1 = a / 100`. -/
theorem claim7_daily_rate_roundtrip (root252 : ℚ → ℚ) (rates : List ℚ) (a : ℚ)
    (hroot : root252 (1 + a / 100) ^ 252 = 1 + a / 100) :
    (process_rates root252 rates).length = rates.length
    ∧ (∀ (i : ℕ) (h1 : i < rates.length) (h2 : i < (process_rates root252 rates).length),
        (process_rates root252 rates).get ⟨i, h2⟩
          = root252 (1 + (rates.get ⟨i, h1⟩) / 100) - 1)
    ∧ (1 + dailyRate root252 a) ^ 252 - 1 = a / 100 := by
  refine ⟨List.length_map rates (dailyRate root252), ?_, ?_⟩
  · intro i h1 h2
    simp [process_rates, dailyRate]
  · rw [dailyRate]
    have h1 : 1 + (root252 (1 + a / 100) - 1) = root252 (1 + a / 100) := by ring
    rw [h1, hroot]
    ring

/-- Witness for C7 at annual rate `0` with the (exact) 252nd root of `1`. -/
theorem claim7_daily_rate_roundtrip_witness :
    ((fun _ : ℚ => (1 : ℚ)) (1 + (0 : ℚ) / 100)) ^ 252 = 1 + (0 : ℚ) / 100
    ∧ (1 + dailyRate (fun _ : ℚ => (1 : ℚ)) 0) ^ 252 - 1 = (0 : ℚ) / 100 :=
  ⟨by norm_num,
   (claim7_daily_rate_roundtrip (fun _ : ℚ => (1 : ℚ)) [] 0 (by norm_num)).2.2⟩

/-! ## ESG cleaning (`src/data_processing/clean_esg.py`, `clean_esg_data`) -/

/-- `Char`-level model of `.str.upper()` (kernel-evaluable, unlike
`String.toUpper`). -/
def upperStr (s : String) : String := ⟨s.data.map Char.toUpper⟩

/-- `Char`-level model of `.str.strip()`. -/
def stripStr (s : String) : String :=
  ⟨((s.data.dropWhile Char.isWhitespace).reverse.dropWhile Char.isWhitespace).reverse⟩

/-- One row of the raw ESG table: the identified ESG score columns as a list
of nullable scores, plus the sector column used for imputation. -/
structure ERow where
  ticker : String
  scores : List (Option ℚ)
  sector : String
deriving DecidableEq, Repr

/-- `df[ticker_col] = df[ticker_col].str.upper().str.strip()`. -/
def standardizeTickers (rows : List ERow) : List ERow :=
  rows.map (fun r => { r with ticker := stripStr (upperStr r.ticker) })

/-- `df[~df[ticker_col].duplicated()]`: drop later duplicate tickers, keeping
the first occurrence; `seen` accumulates tickers already kept. -/
def dedupTickers : List ERow → List String → List ERow
  | [], _ => []
  | r :: rest, seen =>
    if r.ticker ∈ seen then dedupTickers rest seen
    else r :: dedupTickers rest (r.ticker :: seen)

/-- `df[esg_columns].isnull().any(axis=1)` for one row. -/
def rowMissing (r : ERow) : Bool := r.scores.any (fun v => v.isNone)

/-- The non-null values of ESG column `j`. -/
def colVals (rows : List ERow) (j : ℕ) : List ℚ :=
  rows.filterMap (fun r => r.scores.getD j none)

/-- `Series.median()` (skipping nulls is handled by the caller passing only
non-null values): middle element for odd length, mean of the two middle
elements for even length, `NaN` (`none`) for an empty series. -/
def medianQ (l : List ℚ) : Option ℚ :=
  match l with
  | [] => none
  | _ :: _ =>
    let s := sortBy (fun a b : ℚ => decide (a ≤ b)) l
    let n := l.length
    if n % 2 = 1 then some (s.getD (n / 2) 0)
    else some ((s.getD (n / 2 - 1) 0 + s.getD (n / 2) 0) / 2)

/-- `Series.fillna(median)` on one cell. -/
def fillWith (med : Option ℚ) : Option ℚ → Option ℚ
  | some x => some x
  | none => med

/-- `df[col].fillna(df[col].median())` applied to each ESG column. -/
def imputeGlobal (rows : List ERow) : List ERow :=
  rows.map (fun r =>
    { r with scores := r.scores.mapIdx (fun j v => fillWith (medianQ (colVals rows j)) v) })

def colValsSector (rows : List ERow) (sec : String) (j : ℕ) : List ℚ :=
  colVals (rows.filter (fun r => r.sector == sec)) j

/-- `df.groupby(sector)[col].transform(lambda x: x.fillna(x.median()))`
applied to each ESG column. -/
def imputeBySector (rows : List ERow) : List ERow :=
  rows.map (fun r =>
    { r with scores :=
        r.scores.mapIdx (fun j v => fillWith (medianQ (colValsSector rows r.sector j)) v) })

/-- `(total_missing / total_rows) * 100`, the percentage of rows with any
missing ESG score. -/
def missingPct (rows : List ERow) : ℚ :=
  (((rows.filter rowMissing).length : ℚ) / (rows.length : ℚ)) * 100

/-- The missing-value policy of `clean_esg_data`: drop rows with missing
scores when the missing percentage is strictly below 5, otherwise impute
(by sector when a sector column exists, else globally). -/
def handleMissing (hasSector : Bool) (rows : List ERow) : List ERow :=
  if missingPct rows < 5 then rows.filter (fun r => !(rowMissing r))
  else if hasSector then imputeBySector rows else imputeGlobal rows

/-- `clean_esg_data` after loading: standardize tickers, drop duplicate
tickers (keep first), then apply the missing-value policy.  (The subsequent
range check only prints, and the infinity check is vacuous for values
representable here.) -/
def clean_esg_data (hasSector : Bool) (rows : List ERow) : List ERow :=
  handleMissing hasSector (dedupTickers (standardizeTickers rows) [])

/-- A 20-row ESG table with exactly one row missing its score: the missing
percentage is exactly 5. -/
def esgTable20 : List ERow :=
  { ticker := "A", scores := [none], sector := "X" }
    :: (List.range 19).map
        (fun i => { ticker := "B" ++ Nat.repr i, scores := [some 50], sector := "X" })

/-- Counterexample to C4 as stated: at exactly 5% missing ("at most 5%"
according to the claim) the code does not drop the incomplete rows; it takes
the imputation branch and keeps all 20 rows, filling the missing score with
the median 50. -/
theorem claim4_counterexample :
    missingPct (dedupTickers (standardizeTickers esgTable20) []) = 5
    ∧ (clean_esg_data false esgTable20).length = 20
    ∧ ¬ ((clean_esg_data false esgTable20).length = 19)
    ∧ (clean_esg_data false esgTable20).head?.map (fun r => r.scores) = some [some 50] := by
  with_unfolding_all decide

/-- C4 (amended): in ESG cleaning, if the percentage of rows with any missing
ESG/pillar score is at least 5 (not strictly more than 5), missing values are
imputed (median within sector when a sector column exists, else global
median) and the rows are kept (the row count is unchanged); if strictly less
than 5% of rows are missing, the rows with missing ESG scores are dropped. -/
theorem claim4_missing_policy (hasSector : Bool) (rows : List ERow) :
    (missingPct (dedupTickers (standardizeTickers rows) []) < 5 →
      clean_esg_data hasSector rows
        = (dedupTickers (standardizeTickers rows) []).filter (fun r => !(rowMissing r)))
    ∧ (¬ missingPct (dedupTickers (standardizeTickers rows) []) < 5 →
        clean_esg_data hasSector rows
          = (if hasSector then imputeBySector (dedupTickers (standardizeTickers rows) [])
             else imputeGlobal (dedupTickers (standardizeTickers rows) []))
        ∧ (clean_esg_data hasSector rows).length
            = (dedupTickers (standardizeTickers rows) []).length) := by
  constructor
  · intro h
    rw [clean_esg_data, handleMissing, if_pos h]
  · intro h
    have he : clean_esg_data hasSector rows
        = (if hasSector then imputeBySector (dedupTickers (standardizeTickers rows) [])
           else imputeGlobal (dedupTickers (standardizeTickers rows) [])) := by
      rw [clean_esg_data, handleMissing, if_neg h]
    refine ⟨he, ?_⟩
    rw [he]
    cases hasSector with
    | true => simp [imputeBySector]
    | false => simp [imputeGlobal]

/-- Witness for C4 (amended): the imputing branch at exactly 5% missing
(20 rows, 1 incomplete), and the dropping branch on a fully complete 1-row
table. -/
theorem claim4_missing_policy_witness :
    (¬ missingPct (dedupTickers (standardizeTickers esgTable20) []) < 5
      ∧ (clean_esg_data false esgTable20).length
          = (dedupTickers (standardizeTickers esgTable20) []).length)
    ∧ (missingPct (dedupTickers (standardizeTickers
          [({ ticker := "A", scores := [some 1], sector := "X" } : ERow)]) []) < 5
      ∧ clean_esg_data false [({ ticker := "A", scores := [some 1], sector := "X" } : ERow)]
          = (dedupTickers (standardizeTickers
              [({ ticker := "A", scores := [some 1], sector := "X" } : ERow)]) []).filter
              (fun r => !(rowMissing r))) :=
  ⟨⟨by with_unfolding_all decide,
    ((claim4_missing_policy false esgTable20).2 (by with_unfolding_all decide)).2⟩,
   ⟨by with_unfolding_all decide,
    (claim4_missing_policy false
      [({ ticker := "A", scores := [some 1], sector := "X" } : ERow)]).1
      (by with_unfolding_all decide)⟩⟩

/-! ## Dataset merger (`src/data_processing/merge_data.py`, `merge_all_data`)

Each input file is `Option`-valued: `none` models `FileNotFoundError`. -/

/-- A row of the returns file (values re-read from CSV, so modelled as
arbitrary float cells). -/
structure RetRow where
  ticker : String
  date : ℕ
  ret : EVal
deriving DecidableEq, Repr

/-- A row of the cleaned ESG file (one representative score column). -/
structure EsgTRow where
  ticker : String
  esg : EVal
deriving DecidableEq, Repr

/-- A row of the risk-free-rate file. -/
structure RfTRow where
  date : ℕ
  rate : EVal
deriving DecidableEq, Repr

/-- A row of the market-returns file. -/
structure MktTRow where
  date : ℕ
  mret : EVal
deriving DecidableEq, Repr

/-- A row of the company-info file. -/
structure CoTRow where
  ticker : String
  mcap : EVal
  sector : String
  industry : String
deriving DecidableEq, Repr

/-- Returns ⨝ ESG (inner join on `Ticker`). -/
structure M2Row where
  ticker : String
  date : ℕ
  ret : EVal
  esg : EVal
deriving DecidableEq, Repr

/-- After the `Daily_RF_Rate` left join. -/
structure M3Row extends M2Row where
  rfRate : EVal
deriving DecidableEq, Repr

/-- After the `Market_Return` left join. -/
structure M4Row extends M3Row where
  mret : EVal
deriving DecidableEq, Repr

/-- After the company-info left join (`sector`/`industry` are nullable
strings). -/
structure M5Row extends M4Row where
  mcap : EVal
  sector : Option String
  industry : Option String
deriving DecidableEq, Repr

/-- A row of the final master dataset, with `Excess_Return`. -/
structure MasterRow extends M5Row where
  excess : EVal
deriving DecidableEq, Repr

/-- `returns_df.merge(esg_df, on="Ticker", how="inner")`: for each returns row
in order, one output row per matching ESG row. -/
def innerJoinEsg (rdf : List RetRow) (edf : List EsgTRow) : List M2Row :=
  rdf.flatMap (fun r =>
    (edf.filter (fun e => e.ticker == r.ticker)).map (fun e =>
      { ticker := r.ticker, date := r.date, ret := r.ret, esg := e.esg }))

/-- `master_df.merge(rf_df[["Date", "Daily_RF_Rate"]], on="Date", how="left")`. -/
def joinRf (rf : List RfTRow) (m : List M2Row) : List M3Row :=
  m.flatMap (fun r =>
    if (rf.filter (fun x => x.date == r.date)).isEmpty then
      [{ toM2Row := r, rfRate := EVal.nanV }]
    else (rf.filter (fun x => x.date == r.date)).map
      (fun x => { toM2Row := r, rfRate := x.rate }))

def sortM3ByDate (l : List M3Row) : List M3Row :=
  sortBy (fun a b => decide (a.date ≤ b.date)) l

/-- `Series.ffill()` on the `Daily_RF_Rate` column (`carry` is the last
non-null value seen). -/
def ffillRf : Option EVal → List M3Row → List M3Row
  | _, [] => []
  | carry, r :: rest =>
    if r.rfRate = EVal.nanV then
      { r with rfRate := carry.getD EVal.nanV } :: ffillRf carry rest
    else r :: ffillRf (some r.rfRate) rest

/-- `Series.bfill()` on `Daily_RF_Rate`, as a forward fill on the reversed
rows. -/
def bfillRf (l : List M3Row) : List M3Row := (ffillRf none l.reverse).reverse

/-- Step 3 of the merge: left-join the risk-free file when present (with the
sort/ffill/bfill repair when some rows miss a rate), else substitute the
constant column `Daily_RF_Rate = 0.0`. -/
def addRf (rf? : Option (List RfTRow)) (m : List M2Row) : List M3Row :=
  match rf? with
  | none => m.map (fun r => { toM2Row := r, rfRate := EVal.fin 0 })
  | some rf =>
    if (joinRf rf m).any (fun r => decide (r.rfRate = EVal.nanV)) then
      bfillRf (ffillRf none (sortM3ByDate (joinRf rf m)))
    else joinRf rf m

def joinMkt (mkt : List MktTRow) (m : List M3Row) : List M4Row :=
  m.flatMap (fun r =>
    if (mkt.filter (fun x => x.date == r.date)).isEmpty then
      [{ toM3Row := r, mret := EVal.nanV }]
    else (mkt.filter (fun x => x.date == r.date)).map
      (fun x => { toM3Row := r, mret := x.mret }))

def sortM4ByDate (l : List M4Row) : List M4Row :=
  sortBy (fun a b => decide (a.date ≤ b.date)) l

def ffillMkt : Option EVal → List M4Row → List M4Row
  | _, [] => []
  | carry, r :: rest =>
    if r.mret = EVal.nanV then
      { r with mret := carry.getD EVal.nanV } :: ffillMkt carry rest
    else r :: ffillMkt (some r.mret) rest

def bfillMkt (l : List M4Row) : List M4Row := (ffillMkt none l.reverse).reverse

/-- Step 4 of the merge: left-join market returns when the file is present,
else substitute the constant column `Market_Return = NaN`. -/
def addMkt (mkt? : Option (List MktTRow)) (m : List M3Row) : List M4Row :=
  match mkt? with
  | none => m.map (fun r => { toM3Row := r, mret := EVal.nanV })
  | some mkt =>
    if (joinMkt mkt m).any (fun r => decide (r.mret = EVal.nanV)) then
      bfillMkt (ffillMkt none (sortM4ByDate (joinMkt mkt m)))
    else joinMkt mkt m

def joinCo (co : List CoTRow) (m : List M4Row) : List M5Row :=
  m.flatMap (fun r =>
    if (co.filter (fun x => x.ticker == r.ticker)).isEmpty then
      [{ toM4Row := r, mcap := EVal.nanV, sector := none, industry := none }]
    else (co.filter (fun x => x.ticker == r.ticker)).map (fun x =>
      { toM4Row := r, mcap := x.mcap, sector := some x.sector, industry := some x.industry }))

/-- Step 5 of the merge: left-join company info when the file is present, else
substitute `Market_Cap = NaN`, `Sector = "Unknown"`, `Industry = "Unknown"`. -/
def addCo (co? : Option (List CoTRow)) (m : List M4Row) : List M5Row :=
  match co? with
  | none => m.map (fun r =>
      { toM4Row := r, mcap := EVal.nanV,
        sector := some "Unknown", industry := some "Unknown" })
  | some co => joinCo co m

/-- Step 6: `Excess_Return = Return - Daily_RF_Rate`. -/
def addExcess (m : List M5Row) : List MasterRow :=
  m.map (fun r => { toM5Row := r, excess := EVal.sub r.ret r.rfRate })

/-- The `(Ticker, Date)` key. -/
def mkey (r : MasterRow) : String × ℕ := (r.ticker, r.date)

/-- `drop_duplicates(subset=["Ticker", "Date"], keep="first")`. -/
def dedupKeys : List MasterRow → List (String × ℕ) → List MasterRow
  | [], _ => []
  | r :: rest, seen =>
    if mkey r ∈ seen then dedupKeys rest seen
    else r :: dedupKeys rest (mkey r :: seen)

/-- `np.isinf(master_df[numeric_cols]).any(axis=1)` on one row: the numeric
columns are Return, the ESG score, Daily_RF_Rate, Market_Return, Market_Cap
and Excess_Return. -/
def rowHasInf (r : MasterRow) : Bool :=
  r.ret.isInf || r.esg.isInf || r.rfRate.isInf || r.mret.isInf
    || r.mcap.isInf || r.excess.isInf

def masterLe (a b : MasterRow) : Bool :=
  if a.ticker = b.ticker then decide (a.date ≤ b.date) else decide (a.ticker < b.ticker)

/-- Step 7: deduplicate on `(Ticker, Date)` keeping the first occurrence,
remove rows with any infinite numeric value, sort by `(Ticker, Date)`. -/
def finalize (m : List MasterRow) : List MasterRow :=
  sortBy masterLe ((dedupKeys m []).filter (fun r => !(rowHasInf r)))

/-- `merge_all_data`: `None` when the returns or ESG file is missing, or when
the inner join with ESG is empty; otherwise the fully merged, validated master
table. -/
def merge_all_data (returns? : Option (List RetRow)) (esg? : Option (List EsgTRow))
    (rf? : Option (List RfTRow)) (mkt? : Option (List MktTRow))
    (co? : Option (List CoTRow)) : Option (List MasterRow) :=
  match returns? with
  | none => none
  | some rdf =>
    match esg? with
    | none => none
    | some edf =>
      if (innerJoinEsg rdf edf).length = 0 then none
      else some (finalize (addExcess (addCo co?
        (addMkt mkt? (addRf rf? (innerJoinEsg rdf edf))))))

theorem joinMkt_src (mkt : List MktTRow) (m : List M3Row) (r : M4Row)
    (hr : r ∈ joinMkt mkt m) : ∃ s ∈ m, r.toM3Row = s := by
  rw [joinMkt] at hr
  rcases List.mem_flatMap.mp hr with ⟨s, hs, hin⟩
  refine ⟨s, hs, ?_⟩
  split at hin
  · simp only [List.mem_singleton] at hin
    subst hin; rfl
  · rcases List.mem_map.mp hin with ⟨x, _, hx⟩
    subst hx; rfl

theorem ffillMkt_src : ∀ (carry : Option EVal) (l : List M4Row) (r : M4Row),
    r ∈ ffillMkt carry l → ∃ x ∈ l, r.toM3Row = x.toM3Row := by
  intro carry l
  induction l generalizing carry with
  | nil => intro r hr; simp [ffillMkt] at hr
  | cons a t ih =>
    intro r hr
    rw [ffillMkt] at hr
    split at hr <;> rcases List.mem_cons.mp hr with h | h
    · exact ⟨a, by simp, by subst h; rfl⟩
    · rcases ih carry r h with ⟨x, hx, he⟩
      exact ⟨x, by simp [hx], he⟩
    · exact ⟨a, by simp, by subst h; rfl⟩
    · rcases ih (some a.mret) r h with ⟨x, hx, he⟩
      exact ⟨x, by simp [hx], he⟩

theorem addMkt_src (mkt? : Option (List MktTRow)) (m : List M3Row) (r : M4Row)
    (hr : r ∈ addMkt mkt? m) : ∃ s ∈ m, r.toM3Row = s := by
  cases mkt? with
  | none =>
    rcases List.mem_map.mp hr with ⟨s, hs, he⟩
    exact ⟨s, hs, by subst he; rfl⟩
  | some mkt =>
    rw [addMkt] at hr
    split at hr
    · rw [bfillMkt] at hr
      have h1 : r ∈ ffillMkt none (ffillMkt none (sortM4ByDate (joinMkt mkt m))).reverse :=
        List.mem_reverse.mp hr
      rcases ffillMkt_src none _ r h1 with ⟨x1, hx1, he1⟩
      have h2 : x1 ∈ ffillMkt none (sortM4ByDate (joinMkt mkt m)) :=
        List.mem_reverse.mp hx1
      rcases ffillMkt_src none _ x1 h2 with ⟨x2, hx2, he2⟩
      have h3 : x2 ∈ joinMkt mkt m := (mem_sortBy _ _ x2).mp hx2
      rcases joinMkt_src mkt m x2 h3 with ⟨s, hs, he3⟩
      exact ⟨s, hs, he1.trans (he2.trans he3)⟩
    · exact joinMkt_src mkt m r hr

theorem joinCo_src (co : List CoTRow) (m : List M4Row) (r : M5Row)
    (hr : r ∈ joinCo co m) : ∃ s ∈ m, r.toM4Row = s := by
  rw [joinCo] at hr
  rcases List.mem_flatMap.mp hr with ⟨s, hs, hin⟩
  refine ⟨s, hs, ?_⟩
  split at hin
  · simp only [List.mem_singleton] at hin
    subst hin; rfl
  · rcases List.mem_map.mp hin with ⟨x, _, hx⟩
    subst hx; rfl

theorem addCo_src (co? : Option (List CoTRow)) (m : List M4Row) (r : M5Row)
    (hr : r ∈ addCo co? m) : ∃ s ∈ m, r.toM4Row = s := by
  cases co? with
  | none =>
    rcases List.mem_map.mp hr with ⟨s, hs, he⟩
    exact ⟨s, hs, by subst he; rfl⟩
  | some co => exact joinCo_src co m r hr

theorem addExcess_src (m : List M5Row) (r : MasterRow)
    (hr : r ∈ addExcess m) : ∃ s ∈ m, r.toM5Row = s := by
  rcases List.mem_map.mp hr with ⟨s, hs, he⟩
  exact ⟨s, hs, by subst he; rfl⟩

theorem addRf_none_rfRate (m : List M2Row) (r : M3Row)
    (hr : r ∈ addRf none m) : r.rfRate = EVal.fin 0 := by
  rcases List.mem_map.mp hr with ⟨s, _, he⟩
  subst he; rfl

theorem addMkt_none_mret (m : List M3Row) (r : M4Row)
    (hr : r ∈ addMkt none m) : r.mret = EVal.nanV := by
  rcases List.mem_map.mp hr with ⟨s, _, he⟩
  subst he; rfl

theorem addCo_none_fields (m : List M4Row) (r : M5Row)
    (hr : r ∈ addCo none m) :
    r.sector = some "Unknown" ∧ r.industry = some "Unknown" ∧ r.mcap = EVal.nanV := by
  rcases List.mem_map.mp hr with ⟨s, _, he⟩
  subst he; exact ⟨rfl, rfl, rfl⟩

theorem dedupKeys_sub : ∀ (l : List MasterRow) (seen : List (String × ℕ)) (r : MasterRow),
    r ∈ dedupKeys l seen → r ∈ l := by
  intro l
  induction l with
  | nil => intro seen r hr; simp [dedupKeys] at hr
  | cons a t ih =>
    intro seen r hr
    rw [dedupKeys] at hr
    split at hr
    · exact List.mem_cons_of_mem a (ih seen r hr)
    · rcases List.mem_cons.mp hr with h | h
      · exact h ▸ List.mem_cons_self a t
      · exact List.mem_cons_of_mem a (ih _ r h)

theorem dedupKeys_spec : ∀ (l : List MasterRow) (seen : List (String × ℕ)),
    (∀ r ∈ dedupKeys l seen, mkey r ∉ seen)
    ∧ (dedupKeys l seen).Pairwise (fun a b => mkey a ≠ mkey b) := by
  intro l
  induction l with
  | nil => intro seen; simp [dedupKeys]
  | cons a t ih =>
    intro seen
    rw [dedupKeys]
    split
    · exact ih seen
    · rename_i hnot
      constructor
      · intro r hr
        rcases List.mem_cons.mp hr with h | h
        · subst h; exact hnot
        · intro hseen
          exact (ih (mkey a :: seen)).1 r h (List.mem_cons_of_mem _ hseen)
      · refine List.pairwise_cons.mpr ⟨?_, (ih (mkey a :: seen)).2⟩
        intro b hb hab
        exact (ih (mkey a :: seen)).1 b hb (hab ▸ List.mem_cons_self _ _)

theorem finalize_sub (m : List MasterRow) (r : MasterRow)
    (hr : r ∈ finalize m) : r ∈ m :=
  dedupKeys_sub m [] r
    (List.mem_of_mem_filter ((mem_sortBy masterLe _ r).mp hr))

theorem finalize_pairwise (m : List MasterRow) :
    (finalize m).Pairwise (fun a b => mkey a ≠ mkey b) := by
  have hf : ((dedupKeys m []).filter (fun r => !(rowHasInf r))).Pairwise
      (fun a b => mkey a ≠ mkey b) :=
    (dedupKeys_spec m []).2.filter _
  exact ((perm_sortBy masterLe _).pairwise_iff (fun hab => Ne.symm hab)).mpr hf

theorem finalize_noInf (m : List MasterRow) (r : MasterRow)
    (hr : r ∈ finalize m) : rowHasInf r = false := by
  have h := List.of_mem_filter ((mem_sortBy masterLe _ r).mp hr)
  simpa using h

theorem merge_some_elim (rdf : List RetRow) (edf : List EsgTRow)
    (rf? : Option (List RfTRow)) (mkt? : Option (List MktTRow))
    (co? : Option (List CoTRow)) (out : List MasterRow)
    (h : merge_all_data (some rdf) (some edf) rf? mkt? co? = some out) :
    out = finalize (addExcess (addCo co?
      (addMkt mkt? (addRf rf? (innerJoinEsg rdf edf))))) := by
  rw [merge_all_data] at h
  split at h
  · exact absurd h (by simp)
  · injection h with h
    exact h.symm

/-- C5: if a required file (returns or ESG) is missing, the merge aborts and
returns `None` (likewise when the ESG inner join is empty, per the code's
no-matching-tickers check); if an optional file is missing the merge continues
with a placeholder column: `Daily_RF_Rate = 0.0` without the risk-free file,
`Market_Return = NaN` without the market-returns file, and
`Sector = "Unknown"` (and `Industry = "Unknown"`, `Market_Cap = NaN`) without
the company-info file. -/
theorem claim5_merge_failure_policy :
    (∀ (esg? : Option (List EsgTRow)) (rf? : Option (List RfTRow))
       (mkt? : Option (List MktTRow)) (co? : Option (List CoTRow)),
      merge_all_data none esg? rf? mkt? co? = none)
    ∧ (∀ (rdf : List RetRow) (rf? : Option (List RfTRow))
       (mkt? : Option (List MktTRow)) (co? : Option (List CoTRow)),
      merge_all_data (some rdf) none rf? mkt? co? = none)
    ∧ (∀ (rdf : List RetRow) (edf : List EsgTRow) (mkt? : Option (List MktTRow))
       (co? : Option (List CoTRow)) (out : List MasterRow),
      merge_all_data (some rdf) (some edf) none mkt? co? = some out →
      ∀ r ∈ out, r.rfRate = EVal.fin 0)
    ∧ (∀ (rdf : List RetRow) (edf : List EsgTRow) (rf? : Option (List RfTRow))
       (co? : Option (List CoTRow)) (out : List MasterRow),
      merge_all_data (some rdf) (some edf) rf? none co? = some out →
      ∀ r ∈ out, r.mret = EVal.nanV)
    ∧ (∀ (rdf : List RetRow) (edf : List EsgTRow) (rf? : Option (List RfTRow))
       (mkt? : Option (List MktTRow)) (out : List MasterRow),
      merge_all_data (some rdf) (some edf) rf? mkt? none = some out →
      ∀ r ∈ out, r.sector = some "Unknown" ∧ r.industry = some "Unknown"
        ∧ r.mcap = EVal.nanV) := by
  refine ⟨fun _ _ _ _ => rfl, fun _ _ _ _ => rfl, ?_, ?_, ?_⟩
  · intro rdf edf mkt? co? out h r hr
    rw [merge_some_elim rdf edf none mkt? co? out h] at hr
    rcases addExcess_src _ r (finalize_sub _ r hr) with ⟨s5, hs5, e5⟩
    rcases addCo_src co? _ s5 hs5 with ⟨s4, hs4, e4⟩
    rcases addMkt_src mkt? _ s4 hs4 with ⟨s3, hs3, e3⟩
    show r.toM5Row.toM4Row.toM3Row.rfRate = EVal.fin 0
    rw [e5, e4, e3]
    exact addRf_none_rfRate _ s3 hs3
  · intro rdf edf rf? co? out h r hr
    rw [merge_some_elim rdf edf rf? none co? out h] at hr
    rcases addExcess_src _ r (finalize_sub _ r hr) with ⟨s5, hs5, e5⟩
    rcases addCo_src co? _ s5 hs5 with ⟨s4, hs4, e4⟩
    show r.toM5Row.toM4Row.mret = EVal.nanV
    rw [e5, e4]
    exact addMkt_none_mret _ s4 hs4
  · intro rdf edf rf? mkt? out h r hr
    rw [merge_some_elim rdf edf rf? mkt? none out h] at hr
    rcases addExcess_src _ r (finalize_sub _ r hr) with ⟨s5, hs5, e5⟩
    have hco := addCo_none_fields _ s5 hs5
    refine ⟨?_, ?_, ?_⟩
    · show r.toM5Row.sector = some "Unknown"
      rw [e5]; exact hco.1
    · show r.toM5Row.industry = some "Unknown"
      rw [e5]; exact hco.2.1
    · show r.toM5Row.mcap = EVal.nanV
      rw [e5]; exact hco.2.2

/-- C6: on every successful run of the merge, the master table has no two
rows sharing a `(Ticker, Date)` pair (duplicates removed keeping the first
occurrence) and no row with an infinite value in any numeric column. -/
theorem claim6_master_invariants (returns? : Option (List RetRow))
    (esg? : Option (List EsgTRow)) (rf? : Option (List RfTRow))
    (mkt? : Option (List MktTRow)) (co? : Option (List CoTRow))
    (out : List MasterRow)
    (h : merge_all_data returns? esg? rf? mkt? co? = some out) :
    out.Pairwise (fun a b => ¬(a.ticker = b.ticker ∧ a.date = b.date))
    ∧ ∀ r ∈ out, rowHasInf r = false := by
  cases returns? with
  | none => exact absurd h (by simp [merge_all_data])
  | some rdf =>
    cases esg? with
    | none => exact absurd h (by simp [merge_all_data])
    | some edf =>
      rw [merge_some_elim rdf edf rf? mkt? co? out h]
      constructor
      · refine (finalize_pairwise _).imp ?_
        intro a b hab hcontra
        exact hab (by simp [mkey, hcontra.1, hcontra.2])
      · exact fun r hr => finalize_noInf _ r hr

/-- A one-row returns table and a matching one-company ESG table. -/
def retT0 : List RetRow := [{ ticker := "A", date := 0, ret := EVal.fin (1/10) }]

def esgT0 : List EsgTRow := [{ ticker := "A", esg := EVal.fin 50 }]

/-- The single master row produced by merging `retT0` and `esgT0` with all
optional files missing. -/
def masterRow0 : MasterRow :=
  { ticker := "A", date := 0, ret := EVal.fin (1/10), esg := EVal.fin 50,
    rfRate := EVal.fin 0, mret := EVal.nanV, mcap := EVal.nanV,
    sector := some "Unknown", industry := some "Unknown", excess := EVal.fin (1/10) }

/-- Witness for C5: with the three optional files missing, the merge still
succeeds and substitutes the placeholder values. -/
theorem claim5_merge_failure_policy_witness :
    merge_all_data (some retT0) (some esgT0) none none none = some [masterRow0]
    ∧ masterRow0.rfRate = EVal.fin 0
    ∧ masterRow0.mret = EVal.nanV
    ∧ masterRow0.sector = some "Unknown" :=
  ⟨by with_unfolding_all decide,
   claim5_merge_failure_policy.2.2.1 retT0 esgT0 none none [masterRow0]
     (by with_unfolding_all decide) masterRow0 (List.mem_singleton.mpr rfl),
   claim5_merge_failure_policy.2.2.2.1 retT0 esgT0 none none [masterRow0]
     (by with_unfolding_all decide) masterRow0 (List.mem_singleton.mpr rfl),
   (claim5_merge_failure_policy.2.2.2.2 retT0 esgT0 none none [masterRow0]
     (by with_unfolding_all decide) masterRow0 (List.mem_singleton.mpr rfl)).1⟩

/-- Witness for C6 on the same concrete successful merge. -/
theorem claim6_master_invariants_witness :
    ([masterRow0].Pairwise (fun a b => ¬(a.ticker = b.ticker ∧ a.date = b.date)))
    ∧ rowHasInf masterRow0 = false :=
  ⟨(claim6_master_invariants (some retT0) (some esgT0) none none none [masterRow0]
      (by with_unfolding_all decide)).1,
   (claim6_master_invariants (some retT0) (some esgT0) none none none [masterRow0]
      (by with_unfolding_all decide)).2 masterRow0 (List.mem_singleton.mpr rfl)⟩

/-! ## Per-ticker feature aggregation
(`src/feature_engineering/performance_metrics.py`, `calculate_performance_metrics`
and `src/feature_engineering/risk_metrics.py`, `calculate_risk_metrics`) -/

/-- A row of the master dataset as consumed by feature engineering: `Return`
and `Excess_Return` are finite there (infinite values were removed by the
merge and `NaN` returns by the returns stage); `Market_Return` is nullable. -/
structure FRow where
  ticker : String
  ret : ℚ
  excess : ℚ
  market : Option ℚ
deriving DecidableEq, Repr

/-- `Series.mean()` (the gate guarantees a nonempty series wherever used). -/
def meanQ (l : List ℚ) : ℚ := l.sum / (l.length : ℚ)

/-- The square of `Series.std()` (sample variance, `ddof=1`); callers guard
the `n ≤ 1` NaN case explicitly. -/
def sampleVar (l : List ℚ) : ℚ :=
  ((l.map (fun x => (x - meanQ l) ^ 2)).sum) / ((l.length : ℚ) - 1)

/-- One output row of `calculate_performance_metrics`. -/
structure PerfRow where
  ticker : String
  tradingDays : ℕ
  meanExcess : ℚ
  annExcess : ℚ
  sharpe : ℚ
  cumulative : ℚ
  annualized : ℚ
  meanRet : ℚ
deriving DecidableEq, Repr

/-- The per-ticker metrics block of `calculate_performance_metrics` (the gate
has already passed, so `tdata` has at least 200 rows).  `sqrtQ` embeds
`np.sqrt`; `powQ` embeds the float power `**` used for the geometric
annualized return. -/
def mkPerf (sqrtQ : ℚ → ℚ) (powQ : ℚ → ℚ → ℚ) (t : String) (tdata : List FRow) : PerfRow :=
  { ticker := t
    tradingDays := tdata.length
    meanExcess := meanQ (tdata.map (fun r => r.excess))
    annExcess := meanQ (tdata.map (fun r => r.excess)) * 252
    sharpe :=
      if 0 < sqrtQ (sampleVar (tdata.map (fun r => r.excess))) then
        meanQ (tdata.map (fun r => r.excess))
          / sqrtQ (sampleVar (tdata.map (fun r => r.excess))) * sqrtQ 252
      else 0
    cumulative := ((tdata.map (fun r => 1 + r.ret)).prod) - 1
    annualized :=
      powQ (1 + (((tdata.map (fun r => 1 + r.ret)).prod) - 1))
        (252 / (tdata.length : ℚ)) - 1
    meanRet := meanQ (tdata.map (fun r => r.ret)) }

/-- `calculate_performance_metrics`: loop over the tickers in first-occurrence
order, skip tickers with fewer than 200 rows, emit one metrics row each. -/
def calculate_performance_metrics (sqrtQ : ℚ → ℚ) (powQ : ℚ → ℚ → ℚ)
    (df : List FRow) : List PerfRow :=
  (uniqueKeep (df.map (fun r => r.ticker)) []).filterMap (fun t =>
    if (df.filter (fun r => r.ticker == t)).length < 200 then none
    else some (mkPerf sqrtQ powQ t (df.filter (fun r => r.ticker == t))))

/-- `Series.quantile(0.05)` with pandas' default linear interpolation. -/
def quantile05 (l : List ℚ) : ℚ :=
  ((sortBy (fun a b : ℚ => decide (a ≤ b)) l).getD ((Int.floor (((l.length : ℚ) - 1) * (5 / 100))).toNat) 0)
    + ((((l.length : ℚ) - 1) * (5 / 100)) - ((Int.floor (((l.length : ℚ) - 1) * (5 / 100))).toNat : ℚ))
      * (((sortBy (fun a b : ℚ => decide (a ≤ b)) l).getD ((Int.floor (((l.length : ℚ) - 1) * (5 / 100))).toNat + 1)
            ((sortBy (fun a b : ℚ => decide (a ≤ b)) l).getD ((Int.floor (((l.length : ℚ) - 1) * (5 / 100))).toNat) 0))
          - ((sortBy (fun a b : ℚ => decide (a ≤ b)) l).getD ((Int.floor (((l.length : ℚ) - 1) * (5 / 100))).toNat) 0))

/-- `(1 + r).cumprod()`: cumulative products with accumulator `acc`. -/
def cumProdAux (acc : ℚ) : List ℚ → List ℚ
  | [] => []
  | x :: xs => (acc * x) :: cumProdAux (acc * x) xs

/-- `.expanding().max()`: running maxima with accumulator `m`. -/
def runMaxAux (m : ℚ) : List ℚ → List ℚ
  | [] => []
  | x :: xs => (max m x) :: runMaxAux (max m x) xs

def runningMax : List ℚ → List ℚ
  | [] => []
  | x :: xs => runMaxAux x (x :: xs)

/-- `Series.min()` on a nonempty series. -/
def listMin : List ℚ → ℚ
  | [] => 0
  | x :: xs => xs.foldl min x

/-- `Max_Drawdown`: minimum of `(cumulative - running_max) / running_max`. -/
def maxDrawdown (rets : List ℚ) : ℚ :=
  listMin (List.zipWith (fun c m => (c - m) / m)
    (cumProdAux 1 (rets.map (fun r => 1 + r)))
    (runningMax (cumProdAux 1 (rets.map (fun r => 1 + r)))))

/-- `np.cov(x, y)[0, 1]` with the default `ddof=1`. -/
def sampleCov (xy : List (ℚ × ℚ)) : ℚ :=
  ((xy.map (fun p => (p.1 - meanQ (xy.map (fun q => q.1)))
      * (p.2 - meanQ (xy.map (fun q => q.2))))).sum) / ((xy.length : ℚ) - 1)

/-- The beta block of `calculate_risk_metrics`: needs at least 100 paired
non-null observations and positive market variance, else `NaN`. -/
def betaOf (tdata : List FRow) : EVal :=
  if 100 ≤ (tdata.filterMap (fun r => r.market.map (fun m => (r.ret, m)))).length then
    if 0 < sampleVar ((tdata.filterMap (fun r => r.market.map (fun m => (r.ret, m)))).map
        (fun p => p.2)) then
      EVal.fin (sampleCov (tdata.filterMap (fun r => r.market.map (fun m => (r.ret, m))))
        / sampleVar ((tdata.filterMap (fun r => r.market.map (fun m => (r.ret, m)))).map
            (fun p => p.2)))
    else EVal.nanV
  else EVal.nanV

/-- The downside-deviation block: sample std of the strictly negative returns
times `sqrt(252)`; with exactly one negative return the sample std (`ddof=1`)
is `NaN` and `NaN * sqrt(252) = NaN`; with none the code returns `0.0`. -/
def downsideOf (sqrtQ : ℚ → ℚ) (tdata : List FRow) : EVal :=
  if 0 < ((tdata.filter (fun r => decide (r.ret < 0))).map (fun r => r.ret)).length then
    if ((tdata.filter (fun r => decide (r.ret < 0))).map (fun r => r.ret)).length ≤ 1 then
      EVal.nanV
    else
      EVal.fin (sqrtQ (sampleVar ((tdata.filter (fun r => decide (r.ret < 0))).map
        (fun r => r.ret))) * sqrtQ 252)
  else EVal.fin 0

/-- One output row of `calculate_risk_metrics`. -/
structure RiskRow where
  ticker : String
  volatility : ℚ
  beta : EVal
  downside : EVal
  excessStd : ℚ
  var5 : ℚ
  maxDD : ℚ
deriving DecidableEq, Repr

/-- The per-ticker metrics block of `calculate_risk_metrics`. -/
def mkRisk (sqrtQ : ℚ → ℚ) (hasMkt : Bool) (t : String) (tdata : List FRow) : RiskRow :=
  { ticker := t
    volatility := sqrtQ (sampleVar (tdata.map (fun r => r.ret))) * sqrtQ 252
    beta := if hasMkt then betaOf tdata else EVal.nanV
    downside := downsideOf sqrtQ tdata
    excessStd := sqrtQ (sampleVar (tdata.map (fun r => r.excess))) * sqrtQ 252
    var5 := quantile05 (tdata.map (fun r => r.ret))
    maxDD := maxDrawdown (tdata.map (fun r => r.ret)) }

/-- `calculate_risk_metrics`: market availability check, then the same
per-ticker loop with the same 200-row gate. -/
def calculate_risk_metrics (sqrtQ : ℚ → ℚ) (df : List FRow) : List RiskRow :=
  (uniqueKeep (df.map (fun r => r.ticker)) []).filterMap (fun t =>
    if (df.filter (fun r => r.ticker == t)).length < 200 then none
    else some (mkRisk sqrtQ (df.any (fun r => r.market.isSome)) t
      (df.filter (fun r => r.ticker == t))))

theorem perf_mem_elim (sqrtQ : ℚ → ℚ) (powQ : ℚ → ℚ → ℚ) (df : List FRow) (p : PerfRow)
    (hp : p ∈ calculate_performance_metrics sqrtQ powQ df) :
    200 ≤ (df.filter (fun r => r.ticker == p.ticker)).length
    ∧ p = mkPerf sqrtQ powQ p.ticker (df.filter (fun r => r.ticker == p.ticker)) := by
  rw [calculate_performance_metrics] at hp
  rcases List.mem_filterMap.mp hp with ⟨t, _, hsome⟩
  split at hsome
  · exact absurd hsome (by simp)
  · rename_i hlen
    injection hsome with hsome
    have ht : p.ticker = t := by rw [← hsome]; rfl
    subst ht
    exact ⟨Nat.le_of_not_lt hlen, hsome.symm⟩

theorem risk_mem_elim (sqrtQ : ℚ → ℚ) (df : List FRow) (p : RiskRow)
    (hp : p ∈ calculate_risk_metrics sqrtQ df) :
    200 ≤ (df.filter (fun r => r.ticker == p.ticker)).length
    ∧ p = mkRisk sqrtQ (df.any (fun r => r.market.isSome)) p.ticker
        (df.filter (fun r => r.ticker == p.ticker)) := by
  rw [calculate_risk_metrics] at hp
  rcases List.mem_filterMap.mp hp with ⟨t, _, hsome⟩
  split at hsome
  · exact absurd hsome (by simp)
  · rename_i hlen
    injection hsome with hsome
    have ht : p.ticker = t := by rw [← hsome]; rfl
    subst ht
    exact ⟨Nat.le_of_not_lt hlen, hsome.symm⟩

theorem gate_ticker_mem (df : List FRow) (t : String)
    (hpos : 0 < (df.filter (fun r => r.ticker == t)).length) :
    t ∈ uniqueKeep (df.map (fun r => r.ticker)) [] := by
  rcases List.exists_mem_of_ne_nil _ (List.length_pos.mp hpos) with ⟨r, hr⟩
  have hrt : r.ticker = t := by simpa using List.of_mem_filter hr
  exact (mem_uniqueKeep _ [] t).mpr
    ⟨List.mem_map.mpr ⟨r, List.mem_of_mem_filter hr, hrt⟩, by simp⟩

/-- C2: in both per-ticker aggregators a ticker with exactly 199 daily rows is
excluded (no output row at all), and a ticker with exactly 200 daily rows gets
an output row. -/
theorem claim2_min_sample_gate (sqrtQ : ℚ → ℚ) (powQ : ℚ → ℚ → ℚ)
    (df : List FRow) (t : String) :
    ((df.filter (fun r => r.ticker == t)).length = 199 →
      (∀ p ∈ calculate_performance_metrics sqrtQ powQ df, p.ticker ≠ t)
      ∧ (∀ p ∈ calculate_risk_metrics sqrtQ df, p.ticker ≠ t))
    ∧ ((df.filter (fun r => r.ticker == t)).length = 200 →
      (∃ p ∈ calculate_performance_metrics sqrtQ powQ df, p.ticker = t)
      ∧ (∃ p ∈ calculate_risk_metrics sqrtQ df, p.ticker = t)) := by
  constructor
  · intro h199
    constructor
    · intro p hp hpt
      have := (perf_mem_elim sqrtQ powQ df p hp).1
      rw [hpt, h199] at this
      omega
    · intro p hp hpt
      have := (risk_mem_elim sqrtQ df p hp).1
      rw [hpt, h199] at this
      omega
  · intro h200
    have huniq := gate_ticker_mem df t (by omega)
    constructor
    · refine ⟨mkPerf sqrtQ powQ t (df.filter (fun r => r.ticker == t)), ?_, rfl⟩
      rw [calculate_performance_metrics]
      exact List.mem_filterMap.mpr ⟨t, huniq, by rw [if_neg (by omega)]⟩
    · refine ⟨mkRisk sqrtQ (df.any (fun r => r.market.isSome)) t
        (df.filter (fun r => r.ticker == t)), ?_, rfl⟩
      rw [calculate_risk_metrics]
      exact List.mem_filterMap.mpr ⟨t, huniq, by rw [if_neg (by omega)]⟩

/-- The `Excess_Return` series of one ticker. -/
def excessSeries (df : List FRow) (t : String) : List ℚ :=
  (df.filter (fun r => r.ticker == t)).map (fun r => r.excess)

theorem sum_const_mul (c : ℚ) : ∀ l : List ℚ, (∀ x ∈ l, x = c) → l.sum = (l.length : ℚ) * c := by
  intro l
  induction l with
  | nil => simp
  | cons a tl ih =>
    intro h
    have ha := h a (by simp)
    have ht := ih (fun x hx => h x (by simp [hx]))
    simp only [List.sum_cons, List.length_cons, ha, ht]
    push_cast
    ring

theorem meanQ_const (l : List ℚ) (c : ℚ) (hne : l ≠ []) (h : ∀ x ∈ l, x = c) :
    meanQ l = c := by
  have hn : (l.length : ℚ) ≠ 0 := Nat.cast_ne_zero.mpr (List.length_pos.mpr hne).ne'
  rw [meanQ, sum_const_mul c l h, mul_comm, mul_div_assoc, div_self hn, mul_one]

theorem sampleVar_const (l : List ℚ) (c : ℚ) (h : ∀ x ∈ l, x = c) :
    sampleVar l = 0 := by
  rcases eq_or_ne l [] with hl | hl
  · subst hl; simp [sampleVar]
  · have hm := meanQ_const l c hl h
    have hsum : (l.map (fun x => (x - meanQ l) ^ 2)).sum = 0 := by
      apply List.sum_eq_zero
      intro y hy
      rcases List.mem_map.mp hy with ⟨x, hx, hxy⟩
      rw [← hxy, h x hx, hm]
      ring
    rw [sampleVar, hsum, zero_div]

/-- C1: for every ticker passing the gate, the Sharpe ratio equals
`(mean excess / std excess) * sqrt(252)` when the standard deviation is
positive, and is set to exactly `0` otherwise (in particular for a constant —
zero-variance — excess series); an excess series with mean `0` also yields
Sharpe `0`.  The result is a total rational in the model, so it is never `NaN`
or infinite.  (`hs0 : sqrtQ 0 = 0` is the float fact `sqrt(0.0) = 0.0`.) -/
theorem claim1_sharpe_ratio (sqrtQ : ℚ → ℚ) (powQ : ℚ → ℚ → ℚ)
    (df : List FRow) (p : PerfRow) (hs0 : sqrtQ 0 = 0)
    (hp : p ∈ calculate_performance_metrics sqrtQ powQ df) :
    (0 < sqrtQ (sampleVar (excessSeries df p.ticker)) →
      p.sharpe = meanQ (excessSeries df p.ticker)
        / sqrtQ (sampleVar (excessSeries df p.ticker)) * sqrtQ 252)
    ∧ (¬ 0 < sqrtQ (sampleVar (excessSeries df p.ticker)) → p.sharpe = 0)
    ∧ (∀ c : ℚ, (∀ x ∈ excessSeries df p.ticker, x = c) → p.sharpe = 0)
    ∧ (meanQ (excessSeries df p.ticker) = 0 → p.sharpe = 0) := by
  rcases perf_mem_elim sqrtQ powQ df p hp with ⟨_, hpe⟩
  have hsh : p.sharpe
      = (if 0 < sqrtQ (sampleVar (excessSeries df p.ticker)) then
          meanQ (excessSeries df p.ticker)
            / sqrtQ (sampleVar (excessSeries df p.ticker)) * sqrtQ 252
         else 0) :=
    congrArg PerfRow.sharpe hpe
  have hneg : ¬ 0 < sqrtQ (sampleVar (excessSeries df p.ticker)) → p.sharpe = 0 := by
    intro h
    rw [hsh, if_neg h]
  refine ⟨?_, hneg, ?_, ?_⟩
  · intro h
    rw [hsh, if_pos h]
  · intro c hc
    apply hneg
    rw [sampleVar_const _ c hc, hs0]
    exact lt_irrefl 0
  · intro hmean
    rw [hsh]
    split
    · rw [hmean, zero_div, zero_mul]
    · rfl

/-- C10: for a gated ticker, exactly one strictly negative return makes
`Downside_Deviation` the `NaN` sample standard deviation (never `0.0`, never
any finite value), while zero negative returns give exactly `0.0`. -/
theorem claim10_downside_deviation (sqrtQ : ℚ → ℚ) (df : List FRow) (p : RiskRow)
    (hp : p ∈ calculate_risk_metrics sqrtQ df) :
    (((df.filter (fun r => r.ticker == p.ticker)).filter
        (fun r => decide (r.ret < 0))).length = 1 →
      p.downside = EVal.nanV ∧ ∀ q : ℚ, p.downside ≠ EVal.fin q)
    ∧ (((df.filter (fun r => r.ticker == p.ticker)).filter
        (fun r => decide (r.ret < 0))).length = 0 →
      p.downside = EVal.fin 0) := by
  rcases risk_mem_elim sqrtQ df p hp with ⟨_, hpe⟩
  have hd : p.downside
      = downsideOf sqrtQ (df.filter (fun r => r.ticker == p.ticker)) :=
    congrArg RiskRow.downside hpe
  constructor
  · intro h1
    have hnan : p.downside = EVal.nanV := by
      rw [hd, downsideOf, List.length_map, h1]
      norm_num
    exact ⟨hnan, fun q hq => by rw [hnan] at hq; exact EVal.noConfusion hq⟩
  · intro h0
    rw [hd, downsideOf, List.length_map, h0]
    norm_num

set_option maxRecDepth 4000

/-- Degenerate embeddings of `sqrt` and `**` used only to instantiate
witnesses (they satisfy `sqrtQ0 0 = 0`). -/
def sqrtQ0 : ℚ → ℚ := fun _ => 0

def powQ0 : ℚ → ℚ → ℚ := fun _ _ => 0

theorem filter_replicate_of_pos {α : Type} (p : α → Bool) (a : α) (n : ℕ)
    (h : p a = true) : (List.replicate n a).filter p = List.replicate n a :=
  List.filter_eq_self.mpr (fun b hb => by rw [List.eq_of_mem_replicate hb]; exact h)

theorem filter_replicate_of_neg {α : Type} (p : α → Bool) (a : α) (n : ℕ)
    (h : p a = false) : (List.replicate n a).filter p = [] := by
  rw [List.filter_eq_nil_iff]
  intro b hb
  rw [List.eq_of_mem_replicate hb, h]
  simp

/-- A master table with ticker "A" on 199 rows and ticker "B" on 200 rows. -/
def dfGate : List FRow :=
  List.replicate 199 { ticker := "A", ret := 0, excess := 0, market := none }
    ++ List.replicate 200 { ticker := "B", ret := 0, excess := 0, market := none }

theorem dfGate_filter_A :
    dfGate.filter (fun r => r.ticker == "A")
      = List.replicate 199 ({ ticker := "A", ret := 0, excess := 0, market := none } : FRow) := by
  rw [dfGate, List.filter_append,
    filter_replicate_of_pos _ _ _ (by decide),
    filter_replicate_of_neg _ _ _ (by decide),
    List.append_nil]

theorem dfGate_filter_B :
    dfGate.filter (fun r => r.ticker == "B")
      = List.replicate 200 ({ ticker := "B", ret := 0, excess := 0, market := none } : FRow) := by
  rw [dfGate, List.filter_append,
    filter_replicate_of_neg _ _ _ (by decide),
    filter_replicate_of_pos _ _ _ (by decide),
    List.nil_append]

theorem dfGate_len_A : (dfGate.filter (fun r => r.ticker == "A")).length = 199 := by
  rw [dfGate_filter_A, List.length_replicate]

theorem dfGate_len_B : (dfGate.filter (fun r => r.ticker == "B")).length = 200 := by
  rw [dfGate_filter_B, List.length_replicate]

/-- Witness for C2: on `dfGate`, ticker "A" (199 rows) gets no output row in
either aggregator, ticker "B" (200 rows) gets one in each. -/
theorem claim2_min_sample_gate_witness :
    ((dfGate.filter (fun r => r.ticker == "A")).length = 199
      ∧ (∀ p ∈ calculate_performance_metrics sqrtQ0 powQ0 dfGate, p.ticker ≠ "A")
      ∧ (∀ p ∈ calculate_risk_metrics sqrtQ0 dfGate, p.ticker ≠ "A"))
    ∧ ((dfGate.filter (fun r => r.ticker == "B")).length = 200
      ∧ (∃ p ∈ calculate_performance_metrics sqrtQ0 powQ0 dfGate, p.ticker = "B")
      ∧ (∃ p ∈ calculate_risk_metrics sqrtQ0 dfGate, p.ticker = "B")) :=
  ⟨⟨dfGate_len_A,
    ((claim2_min_sample_gate sqrtQ0 powQ0 dfGate "A").1 dfGate_len_A).1,
    ((claim2_min_sample_gate sqrtQ0 powQ0 dfGate "A").1 dfGate_len_A).2⟩,
   ⟨dfGate_len_B,
    ((claim2_min_sample_gate sqrtQ0 powQ0 dfGate "B").2 dfGate_len_B).1,
    ((claim2_min_sample_gate sqrtQ0 powQ0 dfGate "B").2 dfGate_len_B).2⟩⟩

theorem perfRowB_mem :
    mkPerf sqrtQ0 powQ0 "B" (dfGate.filter (fun r => r.ticker == "B"))
      ∈ calculate_performance_metrics sqrtQ0 powQ0 dfGate := by
  rw [calculate_performance_metrics]
  refine List.mem_filterMap.mpr ⟨"B", gate_ticker_mem dfGate "B" ?_, ?_⟩
  · rw [dfGate_len_B]; omega
  · rw [if_neg (by rw [dfGate_len_B]; omega)]

theorem dfGate_excess_B_const : ∀ x ∈ excessSeries dfGate "B", x = 0 := by
  rw [excessSeries, dfGate_filter_B]
  intro x hx
  rcases List.mem_map.mp hx with ⟨r, hr, he⟩
  rw [List.eq_of_mem_replicate hr] at he
  exact he.symm

/-- Witness for C1: on `dfGate` the ticker "B" row has a constant (all-zero)
excess series, and its Sharpe ratio is exactly `0`. -/
theorem claim1_sharpe_ratio_witness :
    sqrtQ0 0 = 0
    ∧ mkPerf sqrtQ0 powQ0 "B" (dfGate.filter (fun r => r.ticker == "B"))
        ∈ calculate_performance_metrics sqrtQ0 powQ0 dfGate
    ∧ (mkPerf sqrtQ0 powQ0 "B" (dfGate.filter (fun r => r.ticker == "B"))).sharpe = 0 :=
  ⟨rfl, perfRowB_mem,
   (claim1_sharpe_ratio sqrtQ0 powQ0 dfGate _ rfl perfRowB_mem).2.2.1 0
     dfGate_excess_B_const⟩

/-- A 200-row single-ticker table whose return series has exactly one strictly
negative value. -/
def dfNeg : List FRow :=
  List.replicate 199 { ticker := "B", ret := 0, excess := 0, market := none }
    ++ [{ ticker := "B", ret := -1/10, excess := 0, market := none }]

theorem dfNeg_filter_B : dfNeg.filter (fun r => r.ticker == "B") = dfNeg := by
  rw [dfNeg, List.filter_append,
    filter_replicate_of_pos _ _ _ (by decide)]
  rfl

theorem dfNeg_len_B : (dfNeg.filter (fun r => r.ticker == "B")).length = 200 := by
  rw [dfNeg_filter_B, dfNeg, List.length_append, List.length_replicate]
  rfl

theorem dfNeg_negatives :
    ((dfNeg.filter (fun r => r.ticker == "B")).filter
        (fun r => decide (r.ret < 0))).length = 1 := by
  rw [dfNeg_filter_B, dfNeg, List.filter_append,
    filter_replicate_of_neg _ _ _ (by with_unfolding_all decide)]
  rw [List.nil_append]
  have h : (fun r : FRow => decide (r.ret < 0))
      { ticker := "B", ret := -1/10, excess := 0, market := none } = true := by
    with_unfolding_all decide
  simp [List.filter, h]

theorem riskRowB_mem :
    mkRisk sqrtQ0 (dfNeg.any (fun r => r.market.isSome)) "B"
        (dfNeg.filter (fun r => r.ticker == "B"))
      ∈ calculate_risk_metrics sqrtQ0 dfNeg := by
  rw [calculate_risk_metrics]
  refine List.mem_filterMap.mpr ⟨"B", gate_ticker_mem dfNeg "B" ?_, ?_⟩
  · rw [dfNeg_len_B]; omega
  · rw [if_neg (by rw [dfNeg_len_B]; omega)]

/-- Witness for C10: on `dfNeg` (exactly one negative return) the emitted
`Downside_Deviation` is `NaN`. -/
theorem claim10_downside_deviation_witness :
    ((dfNeg.filter (fun r => r.ticker == "B")).filter
        (fun r => decide (r.ret < 0))).length = 1
    ∧ mkRisk sqrtQ0 (dfNeg.any (fun r => r.market.isSome)) "B"
        (dfNeg.filter (fun r => r.ticker == "B"))
        ∈ calculate_risk_metrics sqrtQ0 dfNeg
    ∧ (mkRisk sqrtQ0 (dfNeg.any (fun r => r.market.isSome)) "B"
        (dfNeg.filter (fun r => r.ticker == "B"))).downside = EVal.nanV :=
  ⟨dfNeg_negatives, riskRowB_mem,
   ((claim10_downside_deviation sqrtQ0 dfNeg _ riskRowB_mem).1 dfNeg_negatives).1⟩

end ESG
